import Mathlib

/-!
Verification development for the MedAssist ingestion pipeline.

The definitions below are shallow embeddings of the Python sources:
  * scripts/fetch_all_checkpointed.py  (checkpointed fetch orchestrator)
  * scripts/cleanup_duplicate_raw.py   (raw-artifact deduplicator)
  * scripts/cleanup_metadata.py        (manifest pruner)
  * src/indexing/orphanet_index.py     (symptom index builder and query engine)

Machine integers are modelled as Int/Nat, JSON values by a small inductive
type, fallible operations (exceptions caught by a bare `except`) by Option,
and Python sets by Finset.
-/

namespace MedAssist

/-! ### Checkpointed fetch orchestrator, scripts/fetch_all_checkpointed.py -/

/-- Checkpoint state, `{"completed": [...], "last_error": ...}`
(see load_checkpoint/save_checkpoint, lines 31-44). -/
structure Checkpoint where
  completed : List String
  lastError : Option String
deriving DecidableEq

/-- Outcome of invoking one fetch collaborator (`fetcher.fetch(**kwargs)`,
line 89): either it returns normally or it raises an exception with a class
name and message. -/
inductive JobOutcome where
  | success
  | failure (excName : String) (msg : String)
deriving DecidableEq

/-- Observable result of one orchestrator run: the keys whose collaborator
was invoked (in order), the last persisted checkpoint, and the process exit
code. -/
structure RunResult where
  invoked : List String
  checkpoint : Checkpoint
  exitCode : Nat
deriving DecidableEq

/-- The orchestrator main loop, lines 82-102 of
scripts/fetch_all_checkpointed.py: iterate the fixed ordered job list once;
a key already in `completed` is skipped; otherwise the collaborator is
invoked; on success the key is appended and the checkpoint saved with
`last_error = None`; on the first exception the checkpoint is saved with
`last_error = f"{type(e).__name__}: {str(e)}"` and the process exits with
code 1; after a full pass the checkpoint is saved with `last_error = None`
and the exit code is 0. -/
def runJobs (outcome : String → JobOutcome) : List String → List String → RunResult
  | [], completed => ⟨[], ⟨completed, none⟩, 0⟩
  | key :: rest, completed =>
    if key ∈ completed then
      runJobs outcome rest completed
    else
      match outcome key with
      | .success =>
        let r := runJobs outcome rest (completed ++ [key])
        ⟨key :: r.invoked, r.checkpoint, r.exitCode⟩
      | .failure excName msg =>
        ⟨[key], ⟨completed, some (excName ++ ": " ++ msg)⟩, 1⟩

/-- A run resuming from a persisted checkpoint
(`completed = list(cp.get("completed", []))`, line 72). -/
def runFromCheckpoint (outcome : String → JobOutcome) (jobs : List String)
    (cp : Checkpoint) : RunResult :=
  runJobs outcome jobs cp.completed

/-- Concrete collaborator behaviour used to witness the orchestrator
theorems: job "b" raises, every other job succeeds. -/
def outcomeB : String → JobOutcome :=
  fun k => if k = "b" then .failure ("RuntimeError") ("boom") else .success

/-! ### JSON values and the dedup record counter, scripts/cleanup_duplicate_raw.py -/

/-- JSON values as loaded by `json.load`. -/
inductive Json where
  | null
  | jbool (b : Bool)
  | jnum (n : Int)
  | jstr (s : String)
  | jarr (elems : List Json)
  | jobj (fields : List (String × Json))

/-- Python truthiness of a JSON value (`if x:`). -/
def Json.truthy : Json → Bool
  | .null => false
  | .jbool b => b
  | .jnum n => decide (n ≠ 0)
  | .jstr s => decide (s ≠ "")
  | .jarr l => !l.isEmpty
  | .jobj f => !f.isEmpty

/-- Python `body.get(k, d)`: `none` models the AttributeError raised when
`body` is not a dict (caught by the enclosing bare `except`). -/
def pyGetD (body : Json) (k : String) (d : Json) : Option Json :=
  match body with
  | .jobj fields => some (((fields.find? (fun p => p.1 == k)).map (fun p => p.2)).getD d)
  | _ => none

/-- Python `len(x)` on a JSON value: defined for lists, dicts and strings,
raises (none) otherwise. -/
def pyLen : Json → Option Nat
  | .jarr l => some l.length
  | .jobj f => some f.length
  | .jstr s => some s.length
  | _ => none

/-- The body of `record_count` (scripts/cleanup_duplicate_raw.py lines
15-41) inside its `try`: `parsed` is the result of `json.load` (`none` when
parsing raised), `body = data.get("data", data)`, then a per-source
accessor; any raising step yields `none`, which the caller turns into the
`except`-branch result -1.  Every successful path returns a Python `len`
(or the literals 0 and 1), hence a Nat. -/
def recordCountTry (parsed : Option Json) (source : String) : Option Nat := do
  let data ← parsed
  let body ← pyGetD data ("data") data
  if source == "pubmed" then
    pyLen (← pyGetD body ("articles") (.jarr []))
  else if source == "pmc" then
    pyLen (← pyGetD body ("articles") (.jarr []))
  else if source == "openfda" then
    pyLen (← pyGetD body ("results") (.jarr []))
  else if source == "rxnorm" then do
    let d1 ← pyLen (← pyGetD body ("drugs") (.jarr []))
    if d1 ≠ 0 then pure d1
    else do
      let rr ← pyGetD body ("raw_response") (.jobj [])
      let ag ← pyGetD rr ("approximateGroup") (.jobj [])
      pyLen (← pyGetD ag ("candidate") (.jarr []))
  else if source == "who" then do
    let v ← match body with
      | .jarr _ => pyGetD body ("results") body
      | _ => pyGetD body ("items") (.jarr [])
    pyLen v
  else if source == "ncbi_bookshelf" then
    pyLen (← pyGetD body ("books") (.jarr []))
  else if source == "orphanet" then do
    let st1 ← pyGetD body ("HPODisorderSetStatusList") (.jobj [])
    let st ← if st1.truthy then pure st1 else pyGetD body ("data") (.jobj [])
    let disorders ← pyGetD st ("HPODisorderSetStatus") (.jarr [])
    match disorders with
    | .jarr l => pure l.length
    | _ => pure 1
  else if source == "openstax" then
    pyLen (← pyGetD body ("chapters") (.jarr []))
  else
    pure 0

/-- `record_count(path, source, subdir)` of scripts/cleanup_duplicate_raw.py:
the ranking count of one candidate file, -1 when anything inside the `try`
raised. -/
def record_count (parsed : Option Json) (source : String) : Int :=
  match recordCountTry parsed source with
  | some n => (n : Int)
  | none => -1

/-! ### The deduplicator ranking, scripts/cleanup_duplicate_raw.py lines 58-89 -/

/-- One candidate file, reduced to the two quantities the ranking key reads:
its `record_count` result and its `st_mtime`. -/
structure Cand where
  count : Int
  mtime : Int
deriving DecidableEq

/-- Ascending lexicographic comparison of Python 2-tuples, as used by
`sorted`. -/
def lexLe (p q : Int × Int) : Bool :=
  decide (p.1 < q.1 ∨ (p.1 = q.1 ∧ p.2 ≤ q.2))

/-- The sort key `(-c, -p.stat().st_mtime)` (line 75). -/
def keyOf (c : Cand) : Int × Int := (-c.count, -c.mtime)

/-- `sorted` orders candidate a before candidate b when key(a) ≤ key(b). -/
def rankLe (a b : Cand) : Bool := lexLe (keyOf a) (keyOf b)

/-- One directory pass of `main` (lines 66-84): directories with at most
one candidate are skipped (nothing deleted); otherwise the candidates are
sorted by the ranking key (`sorted` = stable merge sort), the head is kept
and the tail is deleted. -/
def dedupAction (files : List Cand) : Option Cand × List Cand :=
  if files.length ≤ 1 then (none, [])
  else
    match files.mergeSort rankLe with
    | [] => (none, [])
    | keep :: rest => (some keep, rest)

/-- The spec's worked example: record counts [10, 25, 25], with the two
count-25 files at modification times t1 = 1 < t2 = 2. -/
def filesExample : List Cand := [⟨10, 5⟩, ⟨25, 1⟩, ⟨25, 2⟩]

/-- A candidate whose file failed to parse, with a recent mtime. -/
def candUnparsable : Cand := ⟨record_count none ("pubmed"), 10⟩

/-- A candidate that parsed but whose accessor found no field ("articles"
absent), with an older mtime. -/
def candNoField : Cand := ⟨record_count (some (.jobj [])) ("pubmed"), 0⟩

/-! ### The manifest pruner, scripts/cleanup_metadata.py -/

/-- Python `str.replace(old, new)` scanning left to right over a character
list, replacing non-overlapping occurrences; the fuel argument (initially
the list length) makes the recursion structural. -/
def replaceAllAux (p repl : List Char) : Nat → List Char → List Char
  | _, [] => []
  | 0, l => l
  | fuel + 1, c :: rest =>
    if p.isPrefixOf (c :: rest) && !p.isEmpty then
      repl ++ replaceAllAux p repl fuel (rest.drop (p.length - 1))
    else c :: replaceAllAux p repl fuel rest

/-- Python `l.replace(p, repl)` on character lists. -/
def replaceAll (p repl l : List Char) : List Char :=
  replaceAllAux p repl l.length l

/-- The characters of the literal "_manifest" passed to `str.replace` on
line 27 of scripts/cleanup_metadata.py. -/
def manifestPat : List Char := [ '_', 'm', 'a', 'n', 'i', 'f', 'e', 's', 't' ]

/-- Lines 16-23: read one raw artifact; `json.load(fp).get("_header", {})`
then `h.get("fetch_id")`; any raise is swallowed (`except: pass`) and a
falsy fetch_id is not added to the retained set (`if fid:`).  Returns the
fetch id exactly when the pruner would add it to `kept_ids`. -/
def artifactFetchId (j : Json) : Option String :=
  match pyGetD j ("_header") (.jobj []) with
  | none => none
  | some h =>
    match h with
    | .jobj fields =>
      match ((fields.find? (fun p => p.1 == "fetch_id")).map (fun p => p.2)).getD .null with
      | .jstr s => if s = "" then none else some s
      | _ => none
    | _ => none

/-- `kept_ids` (lines 14-23): the set of fetch ids of the readable retained
artifacts; an unreadable artifact is modelled as `none`. -/
def keptIds (artifacts : List (Option Json)) : Finset String :=
  artifacts.foldl (fun acc a =>
    match a.bind artifactFetchId with
    | some fid => insert fid acc
    | none => acc) ∅

/-- `fid = m.stem.replace("_manifest", "")` (line 27): the identifier the
pruner derives from a manifest file stem. -/
def stemDerivedId (stem : String) : String :=
  String.mk (replaceAll manifestPat [] stem.data)

/-- Lines 26-31: a manifest file `<fid>_manifest.json` is deleted exactly
when its stem-derived identifier is not in `kept_ids`.  `manifestIds` lists
the `<fid>` parts of the manifest file names. -/
def deletedManifests (artifacts : List (Option Json)) (manifestIds : List String) :
    List String :=
  manifestIds.filter (fun fid => decide (stemDerivedId (fid ++ "_manifest") ∉ keptIds artifacts))

/-- A retained, readable artifact whose header fetch id itself contains the
substring "_manifest". -/
def artsC5 : List (Option Json) :=
  [some (.jobj [("_header", .jobj [("fetch_id", .jstr "a_manifest")])])]

/-- A retained, readable artifact with a system-shaped fetch id
(`<source>_<YYYYMMDD>_<HHMMSS>`, src/fetchers/base.py line 24). -/
def artsOk : List (Option Json) :=
  [some (.jobj [("_header", .jobj [("fetch_id", .jstr "orphanet_20240101_000000")])])]

/-! ### The Orphanet symptom index, src/indexing/orphanet_index.py -/

/-- The characters matched by the regex class `\s` (over ASCII), as used by
`re.sub(r"\s+", " ", ...)` and by `str.strip()`. -/
def isPySpace (c : Char) : Bool :=
  c = ' ' || c = '\t' || c = '\n' || c = '\r' || c = '\x0b' || c = '\x0c'

/-- Python `str.strip()`. -/
def pyStrip (l : List Char) : List Char :=
  ((l.dropWhile isPySpace).reverse.dropWhile isPySpace).reverse

/-- Helper for `re.sub(r"\s+", " ", ...)`: the flag records whether the
previous character belonged to a whitespace run already replaced. -/
def collapseWSAux : Bool → List Char → List Char
  | _, [] => []
  | prevSpace, c :: rest =>
    if isPySpace c then
      (if prevSpace then collapseWSAux true rest else ' ' :: collapseWSAux true rest)
    else c :: collapseWSAux false rest

/-- `re.sub(r"\s+", " ", l)`: each maximal whitespace run becomes one
space. -/
def collapseWS (l : List Char) : List Char :=
  collapseWSAux false l

/-- `_normalize_symptom` (lines 18-20):
`re.sub(r"\s+", " ", term.strip().lower()) if term else ""`. -/
def normalizeSymptom (s : String) : String :=
  if s = "" then ""
  else String.mk (collapseWS ((pyStrip s.data).map Char.toLower))

/-- One persisted index entry: (orpha_code, disease_name, frequency, hpo_id). -/
abbrev Entry := String × String × String × String

/-- A query result identity: (orpha_code, disease_name, frequency). -/
abbrev Triple := String × String × String

/-- The in-memory index `symptom_to_diseases`, a dict in insertion order. -/
abbrev SymptomMap := List (String × List Entry)

/-- Dict lookup `idx.get(k)` on the association-list model. -/
def lookupBucket (idx : SymptomMap) (k : String) : Option (List Entry) :=
  (idx.find? (fun p => p.1 == k)).map (fun p => p.2)

/-- `idx.get(k, [])`. -/
def bucketOf (idx : SymptomMap) (k : String) : List Entry :=
  (lookupBucket idx k).getD []

/-- Python substring test `needle in hay`. -/
def isSubstr (needle hay : String) : Bool :=
  decide (needle.data <:+: hay.data)

/-- Collapse a stored quadruple to the query triple by dropping the HPO
term id (line 167). -/
def tripleOf (e : Entry) : Triple := (e.1, e.2.1, e.2.2.1)

/-- `for orpha, name, freq, _ in entries: result.add((orpha, name, freq))`. -/
def addTriples (s : Finset Triple) (entries : List Entry) : Finset Triple :=
  entries.foldl (fun acc e => insert (tripleOf e) acc) s

/-- `SymptomIndex._diseases_for_symptom` (lines 160-174): normalize; an
empty normal form returns the empty set; otherwise collapse the exact
bucket to triples; if that set is empty, scan every indexed key and include
its entries when the normalized query and the key contain one another. -/
def diseasesForSymptom (idx : SymptomMap) (symptom : String) : Finset Triple :=
  let norm := normalizeSymptom symptom
  if norm = "" then ∅
  else
    let direct := (lookupBucket idx norm).getD []
    let result := addTriples ∅ direct
    if result = ∅ then
      idx.foldl (fun acc p =>
        if isSubstr norm p.1 || isSubstr p.1 norm then addTriples acc p.2 else acc) ∅
    else result

/-- Lines 195-207 of `SymptomIndex.query`: per-term disease sets with empty
sets discarded, then n-ary intersection (match_all) or union. -/
def commonSet (idx : SymptomMap) (symptoms : List String) (matchAll : Bool) : Finset Triple :=
  let sets := (symptoms.map (diseasesForSymptom idx)).filter (fun s => decide (s ≠ ∅))
  match sets with
  | [] => ∅
  | s :: rest => if matchAll then rest.foldl (fun a b => a ∩ b) s else rest.foldl (fun a b => a ∪ b) s

/-- One output record of `SymptomIndex.query` (lines 209-217). -/
structure QueryResult where
  orphaCode : String
  diseaseName : String
  matchedSymptoms : List String
  frequency : String
  orphaUrl : String
deriving DecidableEq

/-- Lines 210-217: build one result record from a triple in `common`. -/
def mkResult (symptoms : List String) (t : Triple) : QueryResult :=
  ⟨t.1, t.2.1, symptoms, t.2.2,
    "https://www.orpha.net/consor/cgi-bin/OC_Exp.php?lng=en&Expert=" ++ t.1⟩

/-- `SymptomIndex.query` (lines 176-218) as the set of records it outputs
(the output list enumerates `common`, a Python set, in unspecified
order). -/
def querySet (idx : SymptomMap) (symptoms : List String) (matchAll : Bool) :
    Finset QueryResult :=
  if symptoms.isEmpty then ∅
  else (commonSet idx symptoms matchAll).image (mkResult symptoms)

/-- Project query results to their (code, name, frequency) identities. -/
def resultTriples (rs : Finset QueryResult) : Finset Triple :=
  rs.image (fun r => (r.orphaCode, r.diseaseName, r.frequency))

/-- One phenotype association as read by `_extract_disease_and_symptoms`
(lines 59-66): the HPOId, HPOTerm and HPOFrequency.Name values (absent
fields default to ""). -/
structure HPOAssoc where
  hpoId : String
  hpoTerm : String
  freq : String
deriving DecidableEq

/-- The fields of a `Disorder` object that the extractor reads: the value
of OrphaCode (none when the key is absent), the value of Name (default ""),
and the association list (none when HPODisorderAssociationList is not a
dict; the single-dict/list tolerance of lines 52-56 is folded into the
list). -/
structure DisorderObj where
  orphaCode : Option String
  name : String
  assocList : Option (List HPOAssoc)
deriving DecidableEq

/-- `_extract_disease_and_symptoms` (lines 36-68): a missing/empty Disorder
object (`none`), a falsy OrphaCode or a falsy Name yield (None, None, []);
otherwise the code, the name, and the associations whose HPOTerm is
truthy. -/
def extractDiseaseAndSymptoms (d : Option DisorderObj) :
    Option String × Option String × List (String × String × String) :=
  match d with
  | none => (none, none, [])
  | some obj =>
    match obj.orphaCode with
    | none => (none, none, [])
    | some code =>
      if code = "" ∨ obj.name = "" then (none, none, [])
      else
        (some code, some obj.name,
          (obj.assocList.getD []).filterMap
            (fun a => if a.hpoTerm = "" then none else some (a.hpoId, a.hpoTerm, a.freq)))

/-- Dict assignment `idx[k] = v` on the association-list model: overwrite
the existing binding, else append a new one (Python dicts preserve
insertion order). -/
def updateBucket (idx : SymptomMap) (k : String) (v : List Entry) : SymptomMap :=
  if (lookupBucket idx k).isSome then
    idx.map (fun p => if p.1 = k then (k, v) else p)
  else idx ++ [(k, v)]

/-- Lines 116-124 of `build_symptom_index`, one `(hpo_id, hpo_term, freq)`
iteration: skip empty normal forms; append `(code, name, freq, hpo_id)` to
the term bucket unless the identical tuple is already present. -/
def insertSymptom (code name : String) (idx : SymptomMap)
    (s : String × String × String) : SymptomMap :=
  let norm := normalizeSymptom s.2.1
  if norm = "" then idx
  else
    let entry : Entry := (code, name, s.2.2, s.1)
    let bucket := (lookupBucket idx norm).getD []
    if entry ∈ bucket then idx else updateBucket idx norm (bucket ++ [entry])

/-- Lines 109-124, one disorder iteration: extract; `if not orpha_code:
continue`; otherwise fold the symptom insertions. -/
def buildStep (idx : SymptomMap) (d : Option DisorderObj) : SymptomMap :=
  match extractDiseaseAndSymptoms d with
  | (some code, name, symptoms) => symptoms.foldl (insertSymptom code (name.getD "")) idx
  | (none, _, _) => idx

/-- The index produced by `build_symptom_index` from a disorder list. -/
def buildIndex (disorders : List (Option DisorderObj)) : SymptomMap :=
  disorders.foldl buildStep []

/-- The spec's fallback example: an index whose only key is "acute fever". -/
def idxAcute : SymptomMap := [("acute fever", [("ORPHA:1", "DiseaseX", "Frequent", "HP:1")])]

/-- A one-key index used to refute the unconditional intersection law. -/
def idxB : SymptomMap := [("b", [("1", "D", "f", "h")])]

/-- A two-key index on which both single-term queries are non-empty. -/
def idxAB : SymptomMap :=
  [("b", [("1", "D", "f", "h")]), ("c", [("1", "D", "f", "h2"), ("2", "E", "g", "h3")])]

end MedAssist

namespace MedAssist

/-- C2: for every checkpoint whose completed set contains every configured
job key and whose last_error is null, re-running the orchestrator invokes
zero fetch collaborators (every job is skipped), exits with code 0, and
re-persists the same completed set with a null error. -/
theorem rerun_complete_checkpoint_invokes_nothing
    (outcome : String → JobOutcome) (jobs : List String) (cp : Checkpoint)
    (hall : ∀ k ∈ jobs, k ∈ cp.completed) (_herr : cp.lastError = none) :
    runFromCheckpoint outcome jobs cp = ⟨[], ⟨cp.completed, none⟩, 0⟩ := by
  unfold runFromCheckpoint
  induction jobs with
  | nil => rfl
  | cons k rest ih =>
    have hk : k ∈ cp.completed := hall k (List.mem_cons_self k rest)
    have hrest : ∀ j ∈ rest, j ∈ cp.completed := fun j hj => hall j (List.mem_cons_of_mem k hj)
    simpa [runJobs, hk] using ih hrest

/-- C2 witness: a fully completed three-job checkpoint re-runs with zero
invocations. -/
theorem rerun_complete_checkpoint_invokes_nothing_witness :
    runFromCheckpoint outcomeB ["a", "b", "c"] ⟨["a", "b", "c"], none⟩ =
      ⟨[], ⟨["a", "b", "c"], none⟩, 0⟩ :=
  rerun_complete_checkpoint_invokes_nothing outcomeB ["a", "b", "c"]
    ⟨["a", "b", "c"], none⟩ (by decide) rfl

/-- C3: when the first non-skipped job in the ordered list raises, the
orchestrator exits with code 1, persists a checkpoint whose last_error holds
the formatted exception message and whose completed set is exactly the
completed set accumulated before the failing job (the failing key is not in
it, every previously completed key still is), and no job after the failing
one is invoked. -/
theorem fetch_failure_halts_run
    (outcome : String → JobOutcome) (pre post completed : List String)
    (j excName msg : String)
    (hnd : (pre ++ j :: post).Nodup)
    (hj : j ∉ completed)
    (hfail : outcome j = .failure excName msg)
    (hpre : ∀ k ∈ pre, k ∉ completed → outcome k = .success) :
    (runJobs outcome (pre ++ j :: post) completed).exitCode = 1 ∧
    (runJobs outcome (pre ++ j :: post) completed).checkpoint.lastError =
      some (excName ++ ": " ++ msg) ∧
    (runJobs outcome (pre ++ j :: post) completed).checkpoint.completed =
      completed ++ pre.filter (fun k => decide (k ∉ completed)) ∧
    j ∉ (runJobs outcome (pre ++ j :: post) completed).checkpoint.completed ∧
    (∀ k ∈ post, k ∉ (runJobs outcome (pre ++ j :: post) completed).invoked) ∧
    (∀ k ∈ completed, k ∈ (runJobs outcome (pre ++ j :: post) completed).checkpoint.completed) := by
  induction pre generalizing completed with
  | nil =>
    have hjpost : j ∉ post := by
      simp only [List.nil_append, List.nodup_cons] at hnd
      exact hnd.1
    simp only [List.nil_append, runJobs, if_neg hj, hfail]
    refine ⟨by trivial, by trivial, by simp, ?_, ?_, ?_⟩
    · simpa using hj
    · intro k hk
      simp only [List.mem_singleton]
      intro hkj
      exact hjpost (hkj ▸ hk)
    · intro k hk
      simpa using hk
  | cons p pre ih =>
    have hndrest : (pre ++ j :: post).Nodup := by
      simp only [List.cons_append, List.nodup_cons] at hnd
      exact hnd.2
    have hpnotin : p ∉ pre ++ j :: post := by
      simp only [List.cons_append, List.nodup_cons] at hnd
      exact hnd.1
    have hpj : p ≠ j := by
      intro h
      refine hpnotin (List.mem_append_right pre ?_)
      rw [h]
      exact List.mem_cons_self j post
    have hppre : p ∉ pre := fun h => hpnotin (List.mem_append_left _ h)
    by_cases hpc : p ∈ completed
    · have := ih completed hndrest hj (fun k hk hkc => hpre k (List.mem_cons_of_mem p hk) hkc)
      simpa [runJobs, hpc, List.filter_cons, hpc] using this
    · have hsucc : outcome p = .success := hpre p (List.mem_cons_self p pre) hpc
      have hj2 : j ∉ completed ++ [p] := by
        simp only [List.mem_append, List.mem_singleton]
        rintro (h | h)
        · exact hj h
        · exact hpj h.symm
      have hpre2 : ∀ k ∈ pre, k ∉ completed ++ [p] → outcome k = .success := by
        intro k hk hkc
        refine hpre k (List.mem_cons_of_mem p hk) ?_
        intro hkcomp
        exact hkc (List.mem_append_left _ hkcomp)
      have hfilter : pre.filter (fun k => decide (k ∉ completed ++ [p])) =
          pre.filter (fun k => decide (k ∉ completed)) := by
        apply List.filter_congr
        intro k hk
        have hkp : k ≠ p := fun h => hppre (h ▸ hk)
        simp [List.mem_append, hkp]
      have hmain := ih (completed ++ [p]) hndrest hj2 hpre2
      rw [hfilter] at hmain
      obtain ⟨h1, h2, h3, h4, h5, h6⟩ := hmain
      simp only [List.cons_append, runJobs, if_neg hpc, hsucc, List.append_eq]
      refine ⟨h1, h2, ?_, h4, ?_, ?_⟩
      · rw [h3]
        simp [List.filter_cons, hpc, List.append_assoc]
      · intro k hk
        have hkp : k ≠ p := by
          intro h
          exact hpnotin (h ▸ List.mem_append_right pre (List.mem_cons_of_mem j hk))
        simp only [List.mem_cons]
        rintro (h | h)
        · exact hkp h
        · exact h5 k hk h
      · intro k hk
        exact h6 k (List.mem_append_left _ hk)

/-- C3 witness: with jobs ["a", "b", "c"], nothing completed, and job "b"
raising, the run stops at "b" with exit code 1, the persisted checkpoint
records the error and contains only "a", and "c" is never invoked. -/
theorem fetch_failure_halts_run_witness :
    (runJobs outcomeB (["a"] ++ "b" :: ["c"]) []).exitCode = 1 ∧
    (runJobs outcomeB (["a"] ++ "b" :: ["c"]) []).checkpoint.lastError =
      some ("RuntimeError" ++ ": " ++ "boom") ∧
    (runJobs outcomeB (["a"] ++ "b" :: ["c"]) []).checkpoint.completed =
      [] ++ (["a"] : List String).filter (fun k => decide (k ∉ ([] : List String))) ∧
    "b" ∉ (runJobs outcomeB (["a"] ++ "b" :: ["c"]) []).checkpoint.completed ∧
    (∀ k ∈ ["c"], k ∉ (runJobs outcomeB (["a"] ++ "b" :: ["c"]) []).invoked) ∧
    (∀ k ∈ ([] : List String), k ∈ (runJobs outcomeB (["a"] ++ "b" :: ["c"]) []).checkpoint.completed) :=
  fetch_failure_halts_run outcomeB ["a"] ["c"] [] ("b") ("RuntimeError") ("boom")
    (by decide) (by decide) (by decide)
    (by intro k hk hkc; simp only [List.mem_singleton] at hk; subst hk; decide)

theorem rankLe_trans : ∀ a b c : Cand, rankLe a b → rankLe b c → rankLe a c := by
  intro a b c hab hbc
  simp only [rankLe, lexLe, keyOf, decide_eq_true_eq] at *
  omega

theorem rankLe_total : ∀ a b : Cand, rankLe a b || rankLe b a := by
  intro a b
  simp only [rankLe, lexLe, keyOf, Bool.or_eq_true, decide_eq_true_eq]
  omega

theorem dedup_spec (files : List Cand) (h2 : 2 ≤ files.length) :
    ∃ keep, (dedupAction files).1 = some keep ∧ keep ∈ files ∧
      (∀ f ∈ files, rankLe keep f = true) ∧
      files.Perm (keep :: (dedupAction files).2) := by
  have hlen : ¬ files.length ≤ 1 := by omega
  have hperm := List.mergeSort_perm files rankLe
  have hsorted := List.sorted_mergeSort rankLe_trans (fun a b => rankLe_total a b) files
  match hms : files.mergeSort rankLe with
  | [] =>
    rw [hms] at hperm
    have := hperm.length_eq
    simp at this
    omega
  | keep :: rest =>
    refine ⟨keep, ?_, ?_, ?_, ?_⟩
    · simp [dedupAction, hlen, hms]
    · have : keep ∈ files.mergeSort rankLe := by rw [hms]; exact List.mem_cons_self _ _
      simpa using this
    · intro f hf
      have hfms : f ∈ files.mergeSort rankLe := by simpa using hf
      rw [hms] at hfms hsorted
      rcases List.mem_cons.mp hfms with h | h
      · subst h
        have := rankLe_total f f
        simpa using this
      · exact (List.pairwise_cons.mp hsorted).1 f h
    · have hrest : (dedupAction files).2 = rest := by simp [dedupAction, hlen, hms]
      rw [hrest, ← hms]
      exact hperm.symm

theorem dedup_example_keeps_newest :
    (dedupAction filesExample).1 = some ⟨25, 2⟩ ∧
    (dedupAction filesExample).2.Perm [⟨10, 5⟩, ⟨25, 1⟩] := by
  obtain ⟨keep, h1, h2, h3, h4⟩ := dedup_spec filesExample (by decide)
  simp only [filesExample, List.mem_cons, List.not_mem_nil, or_false] at h2
  have hkeep : keep = (⟨25, 2⟩ : Cand) := by
    rcases h2 with h | h | h
    · exfalso
      have := h3 ⟨25, 2⟩ (by decide)
      rw [h] at this
      exact absurd this (by decide)
    · exfalso
      have := h3 ⟨25, 2⟩ (by decide)
      rw [h] at this
      exact absurd this (by decide)
    · exact h
  subst hkeep
  refine ⟨h1, ?_⟩
  have hconc : filesExample.Perm ((⟨25, 2⟩ : Cand) :: [⟨10, 5⟩, ⟨25, 1⟩]) := by decide
  exact (List.perm_cons _).mp (h4.symm.trans hconc)

/-- C4: a directory with at most one candidate deletes nothing; a directory
with two or more candidates keeps a candidate that is maximal under
(record count descending, then mtime descending) and deletes exactly the
others; in particular, for counts [10, 25, 25] with the count-25 files at
mtimes 1 < 2, the mtime-2 file is kept and the other two are deleted. -/
theorem dedup_keeps_maximal :
    (∀ files : List Cand, files.length ≤ 1 → dedupAction files = (none, [])) ∧
    (∀ files : List Cand, 2 ≤ files.length →
      ∃ keep deleted, dedupAction files = (some keep, deleted) ∧ keep ∈ files ∧
        (∀ f ∈ files, f.count < keep.count ∨ (f.count = keep.count ∧ f.mtime ≤ keep.mtime)) ∧
        files.Perm (keep :: deleted)) ∧
    ((dedupAction filesExample).1 = some ⟨25, 2⟩ ∧
      (dedupAction filesExample).2.Perm [⟨10, 5⟩, ⟨25, 1⟩]) := by
  refine ⟨?_, ?_, dedup_example_keeps_newest⟩
  · intro files h
    unfold dedupAction
    rw [if_pos h]
  · intro files h2
    obtain ⟨keep, h1, hmem, hmax, hperm⟩ := dedup_spec files h2
    refine ⟨keep, (dedupAction files).2, ?_, hmem, ?_, hperm⟩
    · rw [← h1]
    · intro f hf
      have := hmax f hf
      simp only [rankLe, lexLe, keyOf, decide_eq_true_eq] at this
      omega

/-- C4 witness: a single-candidate directory is untouched. -/
theorem dedup_keeps_maximal_witness :
    dedupAction [⟨7, 3⟩] = (none, []) :=
  dedup_keeps_maximal.1 [⟨7, 3⟩] (by decide)

theorem record_count_lower_bound (parsed : Option Json) (source : String) :
    -1 ≤ record_count parsed source := by
  unfold record_count
  cases h : recordCountTry parsed source with
  | none => simp
  | some n =>
    simp only []
    have : (0 : Int) ≤ (n : Int) := Int.natCast_nonneg n
    omega

/-- C7 counterexample: a file that parses but whose accessor finds no field
scores 0, while a file that fails to parse scores -1, and the ranking
strictly favours the former (it is kept over a newer unparsable file), so
the two do not share a worst rank. -/
theorem nofield_outranks_unparsable :
    record_count none ("pubmed") = -1 ∧
    record_count (some (.jobj [])) ("pubmed") = 0 ∧
    (dedupAction [candUnparsable, candNoField]).1 = some candNoField := by
  refine ⟨by decide, by decide, ?_⟩
  obtain ⟨keep, h1, h2, h3, _⟩ := dedup_spec [candUnparsable, candNoField] (by decide)
  simp only [List.mem_cons, List.not_mem_nil, or_false] at h2
  have hkeep : keep = candNoField := by
    rcases h2 with h | h
    · exfalso
      have := h3 candNoField (by decide)
      rw [h] at this
      exact absurd this (by decide)
    · exact h
  exact hkeep ▸ h1

/-- C7 (amended): a candidate that fails to parse scores -1, the minimum
any candidate can score, so it never outranks anything; a candidate whose
accessor finds no field scores 0, which outranks parse failures but never a
file with at least one record; ranking is total, so a malformed file never
aborts the batch. -/
theorem record_count_sentinels :
    (∀ source : String, record_count none source = -1) ∧
    (∀ (parsed : Option Json) (source : String), -1 ≤ record_count parsed source) ∧
    (record_count (some (.jobj [])) ("pubmed") = 0) ∧
    (∀ c₁ c₂ : Cand, c₁.count < c₂.count → rankLe c₂ c₁ = true ∧ rankLe c₁ c₂ = false) := by
  refine ⟨fun _ => rfl, record_count_lower_bound, by decide, ?_⟩
  intro c₁ c₂ h
  constructor
  · simp only [rankLe, lexLe, keyOf, decide_eq_true_eq]
    omega
  · simp only [rankLe, lexLe, keyOf, decide_eq_false_iff_not]
    omega

/-- C7 witness: a zero-record candidate against a three-record candidate:
the latter outranks, never the converse. -/
theorem record_count_sentinels_witness :
    rankLe ⟨3, 0⟩ ⟨0, 9⟩ = true ∧ rankLe ⟨0, 9⟩ ⟨3, 0⟩ = false :=
  record_count_sentinels.2.2.2 ⟨0, 9⟩ ⟨3, 0⟩ (by decide)

end MedAssist

namespace MedAssist

theorem manifestPat_eq : manifestPat = ("_manifest").data := by decide

theorem manifestPat_no_overlap :
    ∀ k, k < manifestPat.length → 0 < k →
      manifestPat.drop k ≠ manifestPat.take (manifestPat.length - k) := by decide

theorem pat_not_prefixOf_mid (c : Char) (r : List Char)
    (h : ¬ manifestPat <:+: (c :: r)) :
    manifestPat.isPrefixOf ((c :: r) ++ manifestPat) = false := by
  by_contra hcon
  rw [Bool.not_eq_false, List.isPrefixOf_iff_prefix] at hcon
  obtain ⟨t, ht⟩ := hcon
  set x := c :: r with hx
  by_cases hlen : manifestPat.length ≤ x.length
  · apply h
    have hxt : manifestPat = x.take manifestPat.length := by
      calc manifestPat = (manifestPat ++ t).take manifestPat.length := (List.take_left _ _).symm
        _ = (x ++ manifestPat).take manifestPat.length := by rw [ht]
        _ = x.take manifestPat.length ++ manifestPat.take (manifestPat.length - x.length) :=
            List.take_append_eq_append_take
        _ = x.take manifestPat.length := by
            have h0 : manifestPat.length - x.length = 0 := by omega
            simp [h0]
    have hpfx : manifestPat <+: x := by
      refine ⟨x.drop manifestPat.length, ?_⟩
      nth_rewrite 1 [hxt]
      exact List.take_append_drop _ _
    exact hpfx.isInfix
  · push_neg at hlen
    have hkpos : 0 < x.length := by simp [hx]
    have hxtake : x.take manifestPat.length = x := List.take_of_length_le (by omega)
    have heq : manifestPat = x ++ manifestPat.take (manifestPat.length - x.length) := by
      calc manifestPat = (manifestPat ++ t).take manifestPat.length := (List.take_left _ _).symm
        _ = (x ++ manifestPat).take manifestPat.length := by rw [ht]
        _ = x.take manifestPat.length ++ manifestPat.take (manifestPat.length - x.length) :=
            List.take_append_eq_append_take
        _ = x ++ manifestPat.take (manifestPat.length - x.length) := by rw [hxtake]
    have hdrop : manifestPat.drop x.length = manifestPat.take (manifestPat.length - x.length) := by
      conv_lhs => rw [heq]
      rw [List.drop_append_eq_append_drop]
      have h1 : x.drop x.length = ([] : List Char) := by simp
      have h2 : x.length - x.length = 0 := by omega
      simp [h1, h2]
    exact manifestPat_no_overlap x.length hlen hkpos hdrop

theorem replaceAllAux_nil (p repl : List Char) (fuel : Nat) :
    replaceAllAux p repl fuel [] = [] := by
  cases fuel <;> rfl

theorem replaceAll_strip (rest : List Char) (hni : ¬ manifestPat <:+: rest) :
    ∀ fuel, (rest ++ manifestPat).length ≤ fuel →
      replaceAllAux manifestPat [] fuel (rest ++ manifestPat) = rest := by
  induction rest with
  | nil =>
    intro fuel hfuel
    simp only [List.nil_append]
    cases fuel with
    | zero =>
      exfalso
      simp [manifestPat] at hfuel
    | succ f =>
      show replaceAllAux manifestPat [] (f + 1) ('_' :: ['m', 'a', 'n', 'i', 'f', 'e', 's', 't']) = []
      rw [replaceAllAux]
      have hcond : (manifestPat.isPrefixOf ('_' :: ['m', 'a', 'n', 'i', 'f', 'e', 's', 't']) && !manifestPat.isEmpty) = true := by decide
      rw [if_pos hcond]
      have hdrop : List.drop (manifestPat.length - 1) ['m', 'a', 'n', 'i', 'f', 'e', 's', 't'] = ([] : List Char) := by decide
      rw [hdrop, replaceAllAux_nil]
      rfl
  | cons c r ih =>
    intro fuel hfuel
    have hnir : ¬ manifestPat <:+: r := by
      intro hr
      apply hni
      obtain ⟨s, t, hst⟩ := hr
      exact ⟨c :: s, t, by rw [← hst]; rfl⟩
    cases fuel with
    | zero =>
      exfalso
      simp at hfuel
    | succ f =>
      have hnp := pat_not_prefixOf_mid c r hni
      show replaceAllAux manifestPat [] (f + 1) (c :: (r ++ manifestPat)) = c :: r
      rw [replaceAllAux]
      rw [List.cons_append] at hnp
      rw [if_neg (by simp [hnp])]
      rw [ih hnir f (by simp at hfuel ⊢; omega)]

theorem keptIds_aux (fid : String) :
    ∀ (l : List (Option Json)) (acc : Finset String),
      (fid ∈ acc ∨ ∃ a ∈ l, a.bind artifactFetchId = some fid) →
      fid ∈ l.foldl (fun acc a =>
        match a.bind artifactFetchId with
        | some f => insert f acc
        | none => acc) acc := by
  intro l
  induction l with
  | nil =>
    intro acc h
    rcases h with h | ⟨a, ha, _⟩
    · simpa using h
    · simp at ha
  | cons x xs ih =>
    intro acc h
    simp only [List.foldl_cons]
    apply ih
    rcases h with h | ⟨a, ha, hfid⟩
    · left
      cases hx : x.bind artifactFetchId <;> simp [hx, h]
    · rcases List.mem_cons.mp ha with rfl | hmem
      · left
        simp [hfid]
      · right
        exact ⟨a, hmem, hfid⟩

theorem mem_keptIds (artifacts : List (Option Json)) (j : Json) (fid : String)
    (hmem : some j ∈ artifacts) (hfid : artifactFetchId j = some fid) :
    fid ∈ keptIds artifacts :=
  keptIds_aux fid artifacts ∅ (Or.inr ⟨some j, hmem, hfid⟩)

/-- C5 counterexample: an artifact whose header fetch id is "a_manifest" is
retained and readable, yet the pruner deletes the manifest with exactly
that fetch identifier, because `stem.replace("_manifest", "")` strips every
occurrence of "_manifest", mangling the identifier. -/
theorem manifest_pruner_deletes_live_manifest_cex :
    "a_manifest" ∈ keptIds artsC5 ∧
    "a_manifest" ∈ deletedManifests artsC5 ["a_manifest"] := by decide

/-- C5 (amended): for any artifact set and manifest set, no manifest is
deleted whose fetch identifier equals the fetch id in the header of a
retained, readable artifact, provided that identifier does not contain the
substring "_manifest" (true of every identifier the system generates,
`<source>_<YYYYMMDD>_<HHMMSS>`). -/
theorem manifest_pruner_safe (artifacts : List (Option Json)) (manifestIds : List String)
    (j : Json) (fid : String)
    (hart : some j ∈ artifacts)
    (hfid : artifactFetchId j = some fid)
    (hni : ¬ ("_manifest").data <:+: fid.data) :
    fid ∉ deletedManifests artifacts manifestIds := by
  intro hdel
  have hstem : stemDerivedId (fid ++ "_manifest") = fid := by
    show String.mk (replaceAll manifestPat [] (fid ++ "_manifest").data) = fid
    have hdata : (fid ++ "_manifest").data = fid.data ++ manifestPat := by
      rw [manifestPat_eq]
      exact String.data_append _ _
    rw [hdata]
    unfold replaceAll
    rw [replaceAll_strip fid.data (by rw [manifestPat_eq]; exact hni) _ (le_refl _)]
  have hkept : fid ∈ keptIds artifacts := mem_keptIds artifacts j fid hart hfid
  rw [deletedManifests, List.mem_filter] at hdel
  rw [hstem] at hdel
  have := hdel.2
  simp at this
  exact this hkept

/-- C5 witness: a system-shaped identifier is never pruned while its
artifact survives. -/
theorem manifest_pruner_safe_witness :
    "orphanet_20240101_000000" ∉
      deletedManifests artsOk ["orphanet_20240101_000000", "stale_fetch"] :=
  manifest_pruner_safe artsOk ["orphanet_20240101_000000", "stale_fetch"]
    (.jobj [("_header", .jobj [("fetch_id", .jstr "orphanet_20240101_000000")])])
    ("orphanet_20240101_000000") (List.mem_singleton.mpr rfl) (by decide) (by decide)

end MedAssist

namespace MedAssist

theorem lookupBucket_cons (p : String × List Entry) (rest : SymptomMap) (k : String) :
    lookupBucket (p :: rest) k = if p.1 = k then some p.2 else lookupBucket rest k := by
  by_cases h : p.1 = k
  · simp [lookupBucket, List.find?, h]
  · have hb : (p.1 == k) = false := beq_eq_false_iff_ne.mpr h
    simp [lookupBucket, List.find?, hb, h]

theorem lookupBucket_map_self (k : String) (v : List Entry) :
    ∀ idx : SymptomMap, (lookupBucket idx k).isSome →
      lookupBucket (idx.map (fun p => if p.1 = k then (k, v) else p)) k = some v := by
  intro idx
  induction idx with
  | nil => intro h; simp [lookupBucket] at h
  | cons p rest ih =>
    intro h
    by_cases hp : p.1 = k
    · simp only [List.map_cons, if_pos hp]
      rw [lookupBucket_cons, if_pos rfl]
    · rw [lookupBucket_cons, if_neg hp] at h
      simp only [List.map_cons, if_neg hp]
      rw [lookupBucket_cons, if_neg hp]
      exact ih h

theorem lookupBucket_append_self (k : String) (v : List Entry) :
    ∀ idx : SymptomMap, ¬ (lookupBucket idx k).isSome →
      lookupBucket (idx ++ [(k, v)]) k = some v := by
  intro idx
  induction idx with
  | nil =>
    intro _
    rw [List.nil_append, lookupBucket_cons, if_pos rfl]
  | cons p rest ih =>
    intro h
    rw [lookupBucket_cons] at h
    by_cases hp : p.1 = k
    · rw [if_pos hp] at h
      simp at h
    · rw [if_neg hp] at h
      rw [List.cons_append, lookupBucket_cons, if_neg hp]
      exact ih h

theorem lookupBucket_update_self (idx : SymptomMap) (k : String) (v : List Entry) :
    lookupBucket (updateBucket idx k v) k = some v := by
  unfold updateBucket
  by_cases h : (lookupBucket idx k).isSome
  · rw [if_pos h]
    exact lookupBucket_map_self k v idx h
  · rw [if_neg h]
    exact lookupBucket_append_self k v idx h

theorem lookupBucket_map_other (k k' : String) (v : List Entry) (hne : k' ≠ k) :
    ∀ idx : SymptomMap,
      lookupBucket (idx.map (fun p => if p.1 = k then (k, v) else p)) k' =
        lookupBucket idx k' := by
  intro idx
  induction idx with
  | nil => rfl
  | cons p rest ih =>
    by_cases hp : p.1 = k
    · have hp2 : p.1 ≠ k' := by rw [hp]; exact fun he => hne he.symm
      simp only [List.map_cons, if_pos hp]
      rw [lookupBucket_cons, lookupBucket_cons,
        if_neg (fun he => hne he.symm), if_neg hp2]
      exact ih
    · simp only [List.map_cons, if_neg hp]
      rw [lookupBucket_cons, lookupBucket_cons]
      by_cases hp2 : p.1 = k'
      · rw [if_pos hp2, if_pos hp2]
      · rw [if_neg hp2, if_neg hp2]
        exact ih

theorem lookupBucket_append_other (k k' : String) (v : List Entry) (hne : k' ≠ k) :
    ∀ idx : SymptomMap,
      lookupBucket (idx ++ [(k, v)]) k' = lookupBucket idx k' := by
  intro idx
  induction idx with
  | nil =>
    rw [List.nil_append, lookupBucket_cons, if_neg (fun he => hne he.symm)]
  | cons p rest ih =>
    rw [List.cons_append, lookupBucket_cons, lookupBucket_cons]
    by_cases hp : p.1 = k'
    · rw [if_pos hp, if_pos hp]
    · rw [if_neg hp, if_neg hp]
      exact ih

theorem lookupBucket_update_other (idx : SymptomMap) (k k' : String) (v : List Entry)
    (hne : k' ≠ k) :
    lookupBucket (updateBucket idx k v) k' = lookupBucket idx k' := by
  unfold updateBucket
  by_cases h : (lookupBucket idx k).isSome
  · rw [if_pos h]
    exact lookupBucket_map_other k k' v hne idx
  · rw [if_neg h]
    exact lookupBucket_append_other k k' v hne idx

theorem bucketOf_insertSymptom_mono (code name : String) (idx : SymptomMap)
    (s : String × String × String) (k : String) (e : Entry)
    (hmem : e ∈ bucketOf idx k) :
    e ∈ bucketOf (insertSymptom code name idx s) k := by
  unfold insertSymptom
  by_cases hn : normalizeSymptom s.2.1 = ""
  · rw [if_pos hn]
    exact hmem
  · rw [if_neg hn]
    by_cases hin : (code, name, s.2.2, s.1) ∈ (lookupBucket idx (normalizeSymptom s.2.1)).getD []
    · simp only [if_pos hin]
      exact hmem
    · simp only [if_neg hin]
      by_cases hk : k = normalizeSymptom s.2.1
      · subst hk
        unfold bucketOf at hmem ⊢
        rw [lookupBucket_update_self]
        simp only [Option.getD_some]
        exact List.mem_append_left _ hmem
      · unfold bucketOf at hmem ⊢
        rw [lookupBucket_update_other _ _ _ _ hk]
        exact hmem

theorem insertSymptom_noop_of_mem (code name : String) (idx : SymptomMap)
    (s : String × String × String)
    (hmem : (code, name, s.2.2, s.1) ∈ bucketOf idx (normalizeSymptom s.2.1)) :
    insertSymptom code name idx s = idx := by
  unfold insertSymptom
  by_cases hn : normalizeSymptom s.2.1 = ""
  · rw [if_pos hn]
  · rw [if_neg hn]
    unfold bucketOf at hmem
    simp only [if_pos hmem]

theorem insertSymptom_noop_of_empty (code name : String) (idx : SymptomMap)
    (s : String × String × String) (hn : normalizeSymptom s.2.1 = "") :
    insertSymptom code name idx s = idx := by
  unfold insertSymptom
  rw [if_pos hn]

theorem insertSymptom_mem_self (code name : String) (idx : SymptomMap)
    (s : String × String × String) (hn : normalizeSymptom s.2.1 ≠ "") :
    (code, name, s.2.2, s.1) ∈
      bucketOf (insertSymptom code name idx s) (normalizeSymptom s.2.1) := by
  unfold insertSymptom
  rw [if_neg hn]
  by_cases hin : (code, name, s.2.2, s.1) ∈ (lookupBucket idx (normalizeSymptom s.2.1)).getD []
  · simp only [if_pos hin]
    exact hin
  · simp only [if_neg hin]
    unfold bucketOf
    rw [lookupBucket_update_self]
    simp only [Option.getD_some]
    exact List.mem_append_right _ (List.mem_singleton.mpr rfl)

theorem foldl_insert_skip_dup (code name : String) (x : String × String × String)
    (s₃ : List (String × String × String)) :
    ∀ (s₂ : List (String × String × String)) (idx : SymptomMap),
      (normalizeSymptom x.2.1 = "" ∨
        (code, name, x.2.2, x.1) ∈ bucketOf idx (normalizeSymptom x.2.1)) →
      List.foldl (insertSymptom code name) idx (s₂ ++ x :: s₃) =
        List.foldl (insertSymptom code name) idx (s₂ ++ s₃) := by
  intro s₂
  induction s₂ with
  | nil =>
    intro idx h
    simp only [List.nil_append, List.foldl_cons]
    have : insertSymptom code name idx x = idx := by
      rcases h with h | h
      · exact insertSymptom_noop_of_empty code name idx x h
      · exact insertSymptom_noop_of_mem code name idx x h
    rw [this]
  | cons c rest ih =>
    intro idx h
    simp only [List.cons_append, List.foldl_cons]
    apply ih
    rcases h with h | h
    · exact Or.inl h
    · exact Or.inr (bucketOf_insertSymptom_mono code name idx c _ _ h)

theorem foldl_insert_dup (code name : String)
    (s₁ s₂ s₃ : List (String × String × String)) (x : String × String × String)
    (idx : SymptomMap) :
    List.foldl (insertSymptom code name) idx (s₁ ++ x :: (s₂ ++ x :: s₃)) =
      List.foldl (insertSymptom code name) idx (s₁ ++ x :: (s₂ ++ s₃)) := by
  rw [List.foldl_append, List.foldl_append, List.foldl_cons, List.foldl_cons]
  apply foldl_insert_skip_dup
  by_cases hn : normalizeSymptom x.2.1 = ""
  · exact Or.inl hn
  · exact Or.inr (insertSymptom_mem_self code name _ x hn)

/-- C6: during index build, a disorder record whose Disorder object is
missing, whose OrphaCode is absent or falsy, or whose Name is falsy
contributes no index entries (the index is unchanged); and a disorder
carrying the same phenotype association twice produces exactly the index it
would produce carrying it once (the duplicate insertion is a no-op). -/
theorem index_build_skip_and_dedup :
    (∀ (idx : SymptomMap) (d : Option DisorderObj),
      (d = none ∨ ∃ o, d = some o ∧
        (o.orphaCode = none ∨ o.orphaCode = some "" ∨ o.name = "")) →
      buildStep idx d = idx) ∧
    (∀ (idx : SymptomMap) (code : Option String) (name : String)
      (l₁ l₂ l₃ : List HPOAssoc) (a : HPOAssoc),
      buildStep idx (some ⟨code, name, some (l₁ ++ a :: (l₂ ++ a :: l₃))⟩) =
        buildStep idx (some ⟨code, name, some (l₁ ++ a :: (l₂ ++ l₃))⟩)) := by
  constructor
  · rintro idx d (rfl | ⟨o, rfl, h⟩)
    · rfl
    · rcases h with h | h | h
      · simp [buildStep, extractDiseaseAndSymptoms, h]
      · simp [buildStep, extractDiseaseAndSymptoms, h]
      · cases hoc : o.orphaCode with
        | none => simp [buildStep, extractDiseaseAndSymptoms, hoc]
        | some c => simp [buildStep, extractDiseaseAndSymptoms, hoc, h]
  · intro idx code name l₁ l₂ l₃ a
    cases code with
    | none => rfl
    | some c =>
      by_cases hskip : c = "" ∨ name = ""
      · simp [buildStep, extractDiseaseAndSymptoms, hskip]
      · simp only [buildStep, extractDiseaseAndSymptoms, if_neg hskip, Option.getD_some]
        by_cases ha : a.hpoTerm = ""
        · simp [List.filterMap_append, List.filterMap_cons, ha]
        · simp only [List.filterMap_append, List.filterMap_cons, if_neg ha]
          exact foldl_insert_dup c name _ _ _ (a.hpoId, a.hpoTerm, a.freq) idx

/-- C6 witness: a disorder without an OrphaCode leaves the empty index
empty. -/
theorem index_build_skip_and_dedup_witness :
    buildStep [] (some ⟨none, "NamedDisease", none⟩) = [] :=
  index_build_skip_and_dedup.1 [] (some ⟨none, "NamedDisease", none⟩)
    (Or.inr ⟨⟨none, "NamedDisease", none⟩, rfl, Or.inl rfl⟩)

end MedAssist

namespace MedAssist

theorem mem_addTriples (x : Triple) :
    ∀ (entries : List Entry) (s : Finset Triple),
      x ∈ addTriples s entries ↔ x ∈ s ∨ ∃ e ∈ entries, tripleOf e = x := by
  intro entries
  induction entries with
  | nil => intro s; simp [addTriples]
  | cons e rest ih =>
    intro s
    simp only [addTriples, List.foldl_cons]
    rw [show List.foldl (fun acc e => insert (tripleOf e) acc) (insert (tripleOf e) s) rest =
      addTriples (insert (tripleOf e) s) rest from rfl]
    rw [ih]
    simp only [Finset.mem_insert, List.mem_cons]
    constructor
    · rintro ((h | h) | ⟨e2, he2, hx⟩)
      · exact Or.inr ⟨e, Or.inl rfl, h.symm⟩
      · exact Or.inl h
      · exact Or.inr ⟨e2, Or.inr he2, hx⟩
    · rintro (h | ⟨e2, (rfl | he2), hx⟩)
      · exact Or.inl (Or.inr h)
      · exact Or.inl (Or.inl hx.symm)
      · exact Or.inr ⟨e2, he2, hx⟩

theorem mem_fallback_foldl (norm : String) (x : Triple) :
    ∀ (idx : SymptomMap) (acc : Finset Triple),
      x ∈ idx.foldl (fun acc p =>
          if isSubstr norm p.1 || isSubstr p.1 norm then addTriples acc p.2 else acc) acc ↔
        x ∈ acc ∨ ∃ k entries, (k, entries) ∈ idx ∧
          (isSubstr norm k || isSubstr k norm) = true ∧ ∃ e ∈ entries, tripleOf e = x := by
  intro idx
  induction idx with
  | nil => intro acc; simp
  | cons p rest ih =>
    intro acc
    simp only [List.foldl_cons]
    by_cases hc : (isSubstr norm p.1 || isSubstr p.1 norm) = true
    · rw [if_pos hc, ih, mem_addTriples]
      constructor
      · rintro ((h | ⟨e, he, hx⟩) | ⟨k, entries, hk, hsub, he⟩)
        · exact Or.inl h
        · exact Or.inr ⟨p.1, p.2, List.mem_cons_self _ _, hc, e, he, hx⟩
        · exact Or.inr ⟨k, entries, List.mem_cons_of_mem _ hk, hsub, he⟩
      · rintro (h | ⟨k, entries, hk, hsub, e, he, hx⟩)
        · exact Or.inl (Or.inl h)
        · rcases List.mem_cons.mp hk with heq | hmem
          · refine Or.inl (Or.inr ⟨e, ?_, hx⟩)
            have : (k, entries) = (p.1, p.2) := by rw [heq]
            rw [show entries = p.2 from congrArg Prod.snd this] at he
            exact he
          · exact Or.inr ⟨k, entries, hmem, hsub, e, he, hx⟩
    · rw [if_neg hc, ih]
      constructor
      · rintro (h | ⟨k, entries, hk, hsub, he⟩)
        · exact Or.inl h
        · exact Or.inr ⟨k, entries, List.mem_cons_of_mem _ hk, hsub, he⟩
      · rintro (h | ⟨k, entries, hk, hsub, e, he, hx⟩)
        · exact Or.inl h
        · rcases List.mem_cons.mp hk with heq | hmem
          · exfalso
            apply hc
            have h1 : k = p.1 := congrArg Prod.fst heq
            rw [← h1]
            exact hsub
          · exact Or.inr ⟨k, entries, hmem, hsub, e, he, hx⟩

theorem diseasesFor_fallback_char (idx : SymptomMap) (t : String)
    (hn : normalizeSymptom t ≠ "")
    (hmiss : lookupBucket idx (normalizeSymptom t) = none) :
    ∀ x, x ∈ diseasesForSymptom idx t ↔
      ∃ k entries, (k, entries) ∈ idx ∧
        (isSubstr (normalizeSymptom t) k || isSubstr k (normalizeSymptom t)) = true ∧
        ∃ e ∈ entries, tripleOf e = x := by
  intro x
  unfold diseasesForSymptom
  simp only [if_neg hn, hmiss, Option.getD_none]
  have hempty : addTriples ∅ ([] : List Entry) = ∅ := rfl
  rw [hempty, if_pos rfl, mem_fallback_foldl]
  simp

theorem diseasesFor_direct_char (idx : SymptomMap) (t : String) (bucket : List Entry)
    (hn : normalizeSymptom t ≠ "")
    (hhit : lookupBucket idx (normalizeSymptom t) = some bucket)
    (hne : bucket ≠ []) :
    ∀ x, x ∈ diseasesForSymptom idx t ↔ ∃ e ∈ bucket, tripleOf e = x := by
  intro x
  unfold diseasesForSymptom
  simp only [if_neg hn, hhit, Option.getD_some]
  have hres : addTriples ∅ bucket ≠ ∅ := by
    match bucket, hne with
    | e :: rest, _ =>
      intro hcon
      have : tripleOf e ∈ addTriples ∅ (e :: rest) := by
        rw [mem_addTriples]
        exact Or.inr ⟨e, List.mem_cons_self _ _, rfl⟩
      rw [hcon] at this
      simp at this
  rw [if_neg hres, mem_addTriples]
  simp

/-- C8: for a term with a non-empty normal form, (a) when the index has no
exact bucket for it, a triple is returned exactly when some indexed key
contains the normalized query as a substring, or is contained in it, and
stores a matching entry; (b) when the exact bucket exists and is non-empty,
the result is exactly that bucket's triples, so the substring scan
contributes nothing. -/
theorem substring_fallback (idx : SymptomMap) (t : String)
    (hn : normalizeSymptom t ≠ "") :
    (lookupBucket idx (normalizeSymptom t) = none →
      ∀ x, x ∈ diseasesForSymptom idx t ↔
        ∃ k entries, (k, entries) ∈ idx ∧
          (isSubstr (normalizeSymptom t) k || isSubstr k (normalizeSymptom t)) = true ∧
          ∃ e ∈ entries, tripleOf e = x) ∧
    (∀ bucket, lookupBucket idx (normalizeSymptom t) = some bucket → bucket ≠ [] →
      ∀ x, x ∈ diseasesForSymptom idx t ↔ ∃ e ∈ bucket, tripleOf e = x) := by
  constructor
  · intro hmiss
    exact diseasesFor_fallback_char idx t hn hmiss
  · intro bucket hhit hne
    exact diseasesFor_direct_char idx t bucket hn hhit hne

/-- C8 witness: with only the key "acute fever" indexed and no exact key
"fever", the query "fever" returns the diseases stored under "acute
fever". -/
theorem substring_fallback_witness :
    ("ORPHA:1", "DiseaseX", "Frequent") ∈ diseasesForSymptom idxAcute ("fever") := by
  have h := (substring_fallback idxAcute ("fever") (by decide)).1 (by decide)
  refine (h _).mpr ?_
  refine ⟨"acute fever", [("ORPHA:1", "DiseaseX", "Frequent", "HP:1")], by decide, by decide, ?_⟩
  exact ⟨("ORPHA:1", "DiseaseX", "Frequent", "HP:1"), by decide, rfl⟩

theorem resultTriples_querySet (idx : SymptomMap) (symptoms : List String)
    (matchAll : Bool) (hne : symptoms ≠ []) :
    resultTriples (querySet idx symptoms matchAll) = commonSet idx symptoms matchAll := by
  unfold querySet resultTriples
  rw [if_neg (by simpa using hne)]
  rw [Finset.image_image]
  have : ((fun r : QueryResult => (r.orphaCode, r.diseaseName, r.frequency)) ∘ mkResult symptoms) = id := by
    funext t
    rfl
  rw [this, Finset.image_id]

/-- C1 counterexample: on an index whose only key is "b", the term "q"
yields no diseases and is discarded, so query(["q", "b"], match_all)
returns the full result set of "b" while the intersection of the two
single-term queries is empty. -/
theorem query_intersection_law_cex :
    resultTriples (querySet idxB ["q", "b"] true) ≠
      resultTriples (querySet idxB ["q"] true) ∩ resultTriples (querySet idxB ["b"] true) := by
  decide

/-- C1 (amended): for any two terms whose per-term disease sets are both
non-empty (equivalently, neither single-term query is discarded),
query([A, B], match_all=true) equals the set intersection of query([A]) and
query([B]), compared as (code, name, frequency) triples.  When exactly one
term's set is empty, the code discards it and returns the other term's full
set instead of the intersection. -/
theorem query_intersection_law (idx : SymptomMap) (A B : String)
    (hA : diseasesForSymptom idx A ≠ ∅) (hB : diseasesForSymptom idx B ≠ ∅) :
    resultTriples (querySet idx [A, B] true) =
      resultTriples (querySet idx [A] true) ∩ resultTriples (querySet idx [B] true) := by
  rw [resultTriples_querySet idx [A, B] true (by simp),
    resultTriples_querySet idx [A] true (by simp),
    resultTriples_querySet idx [B] true (by simp)]
  unfold commonSet
  simp only [List.map_cons, List.map_nil, List.filter_cons, List.filter_nil,
    decide_eq_true_eq, hA, hB]
  simp [hA, hB]

/-- C1 witness: on a two-key index where both single-term queries are
non-empty, the two-term match-all query is their intersection. -/
theorem query_intersection_law_witness :
    resultTriples (querySet idxAB ["b", "c"] true) =
      resultTriples (querySet idxAB ["b"] true) ∩ resultTriples (querySet idxAB ["c"] true) :=
  query_intersection_law idxAB ("b") ("c") (by decide) (by decide)

theorem dropWhile_all (p : Char → Bool) :
    ∀ l : List Char, (∀ c ∈ l, p c = true) → l.dropWhile p = [] := by
  intro l
  induction l with
  | nil => intro _; rfl
  | cons c rest ih =>
    intro h
    rw [List.dropWhile_cons, if_pos (h c (List.mem_cons_self _ _))]
    exact ih (fun c hc => h c (List.mem_cons_of_mem _ hc))

theorem normalize_whitespace_empty (s : String)
    (h : ∀ c ∈ s.data, isPySpace c = true) :
    normalizeSymptom s = "" := by
  unfold normalizeSymptom
  by_cases hs : s = ""
  · rw [if_pos hs]
  · rw [if_neg hs]
    have h1 : s.data.dropWhile isPySpace = [] := dropWhile_all isPySpace s.data h
    unfold pyStrip
    rw [h1]
    simp [collapseWS, collapseWSAux]

theorem diseasesFor_whitespace_empty (idx : SymptomMap) (s : String)
    (h : ∀ c ∈ s.data, isPySpace c = true) :
    diseasesForSymptom idx s = ∅ := by
  unfold diseasesForSymptom
  rw [normalize_whitespace_empty s h]
  simp

theorem query_drops_empty_term (idx : SymptomMap) (t : String) (syms : List String)
    (matchAll : Bool) (h : diseasesForSymptom idx t = ∅) :
    resultTriples (querySet idx (t :: syms) matchAll) =
      resultTriples (querySet idx syms matchAll) := by
  by_cases hs : syms = []
  · subst hs
    rw [resultTriples_querySet idx [t] matchAll (by simp)]
    unfold commonSet querySet resultTriples
    simp [h]
  · rw [resultTriples_querySet idx (t :: syms) matchAll (by simp),
      resultTriples_querySet idx syms matchAll hs]
    unfold commonSet
    simp [h]

/-- C10: a term that is empty or all whitespace normalizes to the empty
string, diseasesFor returns the empty set on it for every index (in
particular the substring scan never runs, so the empty normal form never
matches every key), and query discards it like any other empty-result
term. -/
theorem whitespace_term_yields_nothing (idx : SymptomMap) (s : String)
    (h : ∀ c ∈ s.data, isPySpace c = true) :
    normalizeSymptom s = "" ∧ diseasesForSymptom idx s = ∅ ∧
    (∀ (syms : List String) (matchAll : Bool),
      resultTriples (querySet idx (s :: syms) matchAll) =
        resultTriples (querySet idx syms matchAll)) := by
  refine ⟨normalize_whitespace_empty s h, diseasesFor_whitespace_empty idx s h, ?_⟩
  intro syms matchAll
  exact query_drops_empty_term idx s syms matchAll (diseasesFor_whitespace_empty idx s h)

/-- C10 witness: the whitespace-only term " \t " yields nothing on a
non-trivial index and is discarded from a two-term query. -/
theorem whitespace_term_yields_nothing_witness :
    normalizeSymptom (" \t ") = "" ∧ diseasesForSymptom idxAcute (" \t ") = ∅ ∧
    resultTriples (querySet idxAcute [" \t ", "acute fever"] true) =
      resultTriples (querySet idxAcute ["acute fever"] true) := by
  have h := whitespace_term_yields_nothing idxAcute (" \t ") (by decide)
  exact ⟨h.1, h.2.1, h.2.2 ["acute fever"] true⟩

end MedAssist
